import Mathlib

set_option maxRecDepth 40000

/-!
Shallow embedding of the twiboot-flasher core (src/file_ops.rs, src/i2c.rs,
src/protocol.rs, src/main.rs) and proofs about it.

Strings are modelled as lists of bytes (`List Nat`, each < 256).  A Rust
`&str` slice operation that would panic (non-char-boundary index) is modelled
by `Option`: `none` is a panic.  Machine integers use `Nat` with explicit
`% 65536` where the Rust code performs wrapping `u16` arithmetic
(release-build semantics).
-/

deriving instance DecidableEq for Except

namespace Twiboot

/-! ### Hex digit / `from_str_radix` (base 16) -/

/-- Value of one ASCII hex-digit byte, `none` for a non-digit. -/
def hexDigit (b : Nat) : Option Nat :=
  if 48 ≤ b ∧ b ≤ 57 then some (b - 48)
  else if 97 ≤ b ∧ b ≤ 102 then some (b - 87)
  else if 65 ≤ b ∧ b ≤ 70 then some (b - 55)
  else none

/-- Accumulating hex evaluation of a byte list; `none` on a non-digit. -/
def hexVal : List Nat → Nat → Option Nat
  | [], acc => some acc
  | b :: rest, acc =>
    match hexDigit b with
    | none => none
    | some d => hexVal rest (acc * 16 + d)

/-- Rust `uN::from_str_radix(s, 16)`: an optional leading `+`, then one or more
hex digits; fails on empty digit strings, other bytes, or overflow past
`bound` (255 for `u8`, 65535 for `u16`). -/
def fromStrRadix16 (bound : Nat) (s : List Nat) : Option Nat :=
  let digits := match s with
    | 43 :: rest => if rest = [] then none else hexVal rest 0
    | _ => if s = [] then none else hexVal s 0
  match digits with
  | none => none
  | some v => if v ≤ bound then some v else none

/-! ### UTF-8 validation, char boundaries, slicing -/

/-- Continuation byte 0x80–0xBF. -/
def isCont (b : Nat) : Bool := 128 ≤ b ∧ b ≤ 191

/-- Strict UTF-8 validation, as `String::from_utf8` performs it. -/
def utf8Valid : List Nat → Bool
  | [] => true
  | b :: rest =>
    if b ≤ 127 then utf8Valid rest
    else if 194 ≤ b ∧ b ≤ 223 then
      match rest with
      | c1 :: r => isCont c1 && utf8Valid r
      | _ => false
    else if b = 224 then
      match rest with
      | c1 :: c2 :: r => (160 ≤ c1 ∧ c1 ≤ 191 : Bool) && isCont c2 && utf8Valid r
      | _ => false
    else if (225 ≤ b ∧ b ≤ 236) ∨ b = 238 ∨ b = 239 then
      match rest with
      | c1 :: c2 :: r => isCont c1 && isCont c2 && utf8Valid r
      | _ => false
    else if b = 237 then
      match rest with
      | c1 :: c2 :: r => (128 ≤ c1 ∧ c1 ≤ 159 : Bool) && isCont c2 && utf8Valid r
      | _ => false
    else if b = 240 then
      match rest with
      | c1 :: c2 :: c3 :: r =>
        (144 ≤ c1 ∧ c1 ≤ 191 : Bool) && isCont c2 && isCont c3 && utf8Valid r
      | _ => false
    else if 241 ≤ b ∧ b ≤ 243 then
      match rest with
      | c1 :: c2 :: c3 :: r => isCont c1 && isCont c2 && isCont c3 && utf8Valid r
      | _ => false
    else if b = 244 then
      match rest with
      | c1 :: c2 :: c3 :: r =>
        (128 ≤ c1 ∧ c1 ≤ 143 : Bool) && isCont c2 && isCont c3 && utf8Valid r
      | _ => false
    else false

/-- Rust `str::is_char_boundary(i)`: 0, the length, or a non-continuation byte. -/
def isCharBoundary (s : List Nat) (i : Nat) : Bool :=
  if i = 0 then true
  else if i = s.length then true
  else match s.get? i with
    | some b => !isCont b
    | none => false

/-- Rust `&s[a..b]`: `none` models the panic on an out-of-range or
non-char-boundary index. -/
def strSlice (s : List Nat) (a b : Nat) : Option (List Nat) :=
  if a ≤ b ∧ b ≤ s.length ∧ isCharBoundary s a ∧ isCharBoundary s b then
    some ((s.drop a).take (b - a))
  else none

/-! ### `str::trim` over byte lists -/

/-- Byte length of a leading whitespace character's UTF-8 encoding
(0 when the list does not start with whitespace).  The character set is
Rust's `char::is_whitespace` (Unicode White_Space). -/
def wsLen : List Nat → Nat
  | 9 :: _ => 1
  | 10 :: _ => 1
  | 11 :: _ => 1
  | 12 :: _ => 1
  | 13 :: _ => 1
  | 32 :: _ => 1
  | 194 :: 133 :: _ => 2
  | 194 :: 160 :: _ => 2
  | 225 :: 154 :: 128 :: _ => 3
  | 226 :: 128 :: b :: _ =>
    if (128 ≤ b ∧ b ≤ 138) ∨ b = 168 ∨ b = 169 ∨ b = 175 then 3 else 0
  | 226 :: 129 :: 159 :: _ => 3
  | 227 :: 128 :: 128 :: _ => 3
  | _ => 0

/-- Byte length of a trailing whitespace character, matched on the reversed
byte list (sound on valid UTF-8, where continuation bytes fix boundaries). -/
def wsLenRev : List Nat → Nat
  | 9 :: _ => 1
  | 10 :: _ => 1
  | 11 :: _ => 1
  | 12 :: _ => 1
  | 13 :: _ => 1
  | 32 :: _ => 1
  | 133 :: 194 :: _ => 2
  | 160 :: 194 :: _ => 2
  | 128 :: 154 :: 225 :: _ => 3
  | 159 :: 129 :: 226 :: _ => 3
  | 128 :: 128 :: 227 :: _ => 3
  | b :: 128 :: 226 :: _ =>
    if (128 ≤ b ∧ b ≤ 138) ∨ b = 168 ∨ b = 169 ∨ b = 175 then 3 else 0
  | _ => 0

/-- Strip leading whitespace; fuel bounds the recursion (each step removes at
least one byte, so `l.length` fuel is always enough). -/
def trimLeftAux : Nat → List Nat → List Nat
  | 0, l => l
  | fuel + 1, l =>
    let n := wsLen l
    if n = 0 then l else trimLeftAux fuel (l.drop n)

def trimLeft (l : List Nat) : List Nat := trimLeftAux l.length l

def trimRightAux : Nat → List Nat → List Nat
  | 0, l => l
  | fuel + 1, l =>
    let n := wsLenRev l
    if n = 0 then l else trimRightAux fuel (l.drop n)

def trimRight (l : List Nat) : List Nat :=
  (trimRightAux l.length l.reverse).reverse

/-- Rust `str::trim`. -/
def trimRust (l : List Nat) : List Nat := trimRight (trimLeft l)

/-! ### `str::lines` -/

/-- Rust `split_inclusive` at byte 10 (newline). -/
def splitNl : List Nat → List (List Nat)
  | [] => []
  | b :: rest =>
    if b = 10 then [b] :: splitNl rest
    else match splitNl rest with
      | [] => [[b]]
      | s :: ss => (b :: s) :: ss

/-- Strip one trailing `\n`, and if that succeeded one trailing `\r`
(the per-line map of `str::lines`). -/
def stripLineEnd (s : List Nat) : List Nat :=
  match s.reverse with
  | 10 :: 13 :: t => t.reverse
  | 10 :: t => t.reverse
  | _ => s

/-- Rust `content.lines()` as a list of byte lists. -/
def linesOf (l : List Nat) : List (List Nat) :=
  (splitNl l).map stripLineEnd

/-! ### `parse_hex_file` (src/file_ops.rs) -/

/-- Parse errors of `parse_hex_file`; each constructor is one of the
`context(...)` / `anyhow!` error sites of the Rust function. -/
inductive ParseErr where
  | encoding
  | invalidByteCount
  | invalidAddress
  | invalidRecordType
  | addressConflict (address : Nat)
  | invalidDataByte
  deriving DecidableEq, Repr

/-- Mutable state of the parse loop: the output buffer (pre-sized to
`bootloader_start`, 0xFF-initialised) and the running `max_address`. -/
structure HexState where
  result : List Nat
  max_address : Nat
  deriving DecidableEq, Repr

/-- Outcome of processing one line: panic, fatal error, `break` on an
end-of-file record, or continue with an updated state. -/
inductive LineResult where
  | panic
  | fatal (e : ParseErr)
  | eof (st : HexState)
  | cont (st : HexState)
  deriving DecidableEq, Repr

/-- The data-byte loop of a Data record: for `i` in `0..byte_count`, slice
two hex digits at `8 + 2*i`, decode, and store at `(address + i) % 2^16`
when that target is below `bootloader_start`.  `none` is a panic (slice at a
non-char-boundary). -/
def writeBytes (bs : Nat) (hexData : List Nat) (address : Nat) :
    Nat → Nat → List Nat → Option (Except ParseErr (List Nat))
  | _, 0, buf => some (.ok buf)
  | i, remain + 1, buf =>
    match strSlice hexData (8 + 2 * i) (8 + 2 * i + 2) with
    | none => none
    | some byteStr =>
      match fromStrRadix16 255 byteStr with
      | none => some (.error .invalidDataByte)
      | some byte =>
        let target := (address + i) % 65536
        let buf' := if target < bs then buf.set target byte else buf
        writeBytes bs hexData address (i + 1) remain buf'

/-- One iteration of `for line in content.lines()`. -/
def processLine (bs : Nat) (st : HexState) (line0 : List Nat) : LineResult :=
  let line := trimRust line0
  if line = [] ∨ line.head? ≠ some 58 then .cont st
  else
    let hexData := line.drop 1
    if hexData.length < 8 then .cont st
    else
      match strSlice hexData 0 2 with
      | none => .panic
      | some s1 =>
        match fromStrRadix16 255 s1 with
        | none => .fatal .invalidByteCount
        | some byte_count =>
          match strSlice hexData 2 6 with
          | none => .panic
          | some s2 =>
            match fromStrRadix16 65535 s2 with
            | none => .fatal .invalidAddress
            | some address =>
              match strSlice hexData 6 8 with
              | none => .panic
              | some s3 =>
                match fromStrRadix16 255 s3 with
                | none => .fatal .invalidRecordType
                | some record_type =>
                  if record_type = 0 then
                    if hexData.length < 8 + byte_count * 2 then .cont st
                    else if bs ≤ address then .fatal (.addressConflict address)
                    else
                      match writeBytes bs hexData address 0 byte_count st.result with
                      | none => .panic
                      | some (.error e) => .fatal e
                      | some (.ok buf) =>
                        .cont ⟨buf, max st.max_address ((address + byte_count) % 65536)⟩
                  else if record_type = 1 then .eof st
                  else .cont st

/-- The line loop; an `eof` result breaks out with the current state. -/
def processLines (bs : Nat) : List (List Nat) → HexState →
    Option (Except ParseErr HexState)
  | [], st => some (.ok st)
  | ln :: rest, st =>
    match processLine bs st ln with
    | .panic => none
    | .fatal e => some (.error e)
    | .eof st' => some (.ok st')
    | .cont st' => processLines bs rest st'

/-- Line scan of `parse_hex_file` from the initial state (`bootloader_start`
bytes of 0xFF, `max_address = 0`). -/
def parseHexCore (data : List Nat) (bs : Nat) : Option (Except ParseErr HexState) :=
  processLines bs (linesOf data) ⟨List.replicate bs 0xFF, 0⟩

/-- Model of `parse_hex_file(data, bootloader_start)`.  `none` models a panic;
`some (.error e)` a returned `Err`; `some (.ok buf)` the parsed image. -/
def parse_hex_file (data : List Nat) (bootloader_start : Option Nat) :
    Option (Except ParseErr (List Nat)) :=
  if !utf8Valid data then some (.error .encoding)
  else
    let bs := bootloader_start.getD 0x1C00
    let max_app_size := bs
    match parseHexCore data bs with
    | none => none
    | some (.error e) => some (.error e)
    | some (.ok st) => some (.ok (st.result.take (min st.max_address max_app_size)))

/-! ### `read_file_with_bootloader_info` (src/file_ops.rs)

The `fs::read` side effect is factored out: `data` is the file's content. -/

inductive FileFormat where
  | binary
  | hex
  | auto
  deriving DecidableEq, Repr

def read_file_with_bootloader_info (data : List Nat) (format : FileFormat)
    (bootloader_start : Nat) : Option (Except ParseErr (List Nat)) :=
  match format with
  | .binary => some (.ok data)
  | .hex => parse_hex_file data (some bootloader_start)
  | .auto =>
    if data.head? = some 58 then parse_hex_file data (some bootloader_start)
    else some (.ok data)

/-! ### `write_with_retry` (src/i2c.rs)

The raw `LinuxI2CDevice::write` primitive is factored out as an oracle
giving the outcome of the k-th underlying write call.  Besides the result,
the model returns the trace of observable events (write attempts and
sleeps), so that attempt counts and delay placement can be stated. -/

def WRITE_RETRY_COUNT : Nat := 50

def WRITE_RETRY_DELAY_MS : Nat := 2

/-- Observable events of the retry loop. -/
inductive WEvent where
  | att (k : Nat)
  | sleepMs (ms : Nat)
  deriving DecidableEq, Repr

/-- Error value built by the exhaustion branch: the Rust message embeds
`WRITE_RETRY_COUNT` and the last underlying error. -/
structure RetryFailure where
  retry_count : Nat
  last : Nat
  deriving DecidableEq, Repr

/-- Loop body of `write_with_retry`: `k` is the index of the next underlying
write call, `retries` the remaining retry budget (the Rust `retries`
variable). -/
def writeWithRetryGo (write : Nat → Except Nat Unit) :
    Nat → Nat → Except RetryFailure Unit × List WEvent
  | k, retries =>
    match write k with
    | .ok _ => (.ok (), [.att k])
    | .error e =>
      match retries with
      | 0 => (.error ⟨WRITE_RETRY_COUNT, e⟩, [.att k])
      | r + 1 =>
        let p := writeWithRetryGo write (k + 1) r
        (p.1, .att k :: .sleepMs WRITE_RETRY_DELAY_MS :: p.2)

/-- Model of `TwiI2CDevice::write_with_retry`, starting with the full retry
budget. -/
def write_with_retry (write : Nat → Except Nat Unit) :
    Except RetryFailure Unit × List WEvent :=
  writeWithRetryGo write 0 WRITE_RETRY_COUNT

/-- Number of underlying write attempts recorded in a trace. -/
def attemptsIn (evs : List WEvent) : Nat :=
  (evs.filter fun e => match e with | .att _ => true | _ => false).length

/-! ### `TwiBootloader` (src/protocol.rs) -/

def CMD_READ_MEMORY : Nat := 0x02

def CMD_WRITE_MEMORY : Nat := 0x02

def MEMTYPE_FLASH : Nat := 0x01

def READ_BLOCK_SIZE : Nat := 128

/-- Session state built by `TwiBootloader::new` (the transport handle is
factored out; only the chip-geometry fields matter to the claims). -/
structure TwiBootloader where
  pagesize : Nat
  flashsize : Nat
  deriving DecidableEq, Repr

def TwiBootloader.new : TwiBootloader := ⟨0, 0⟩

def TwiBootloader.get_bootloader_start (b : TwiBootloader) : Nat := b.flashsize

/-- Pad a list with 0xFF up to length `n` (the effect of
`cmd.resize(4 + pagesize, 0xFF)` on the payload part). -/
def padFF (n : Nat) (l : List Nat) : List Nat :=
  l ++ List.replicate (n - l.length) 0xFF

/-- Loop of `write_flash`: emits the I2C transaction (full command byte
sequence) of the page at cursor `pos`, then advances by the number of
real bytes.  `fuel` bounds the loop; `none` means the fuel ran out, which
(for fuel at least `data.length`) only happens when the loop does not
terminate (pagesize 0). -/
def writeFlashGo (pagesize : Nat) (data : List Nat) :
    Nat → Nat → Option (List (List Nat))
  | pos, fuel =>
    if pos < data.length then
      match fuel with
      | 0 => none
      | fuel + 1 =>
        let remaining := data.length - pos
        let len := min remaining pagesize
        let cmd := [CMD_WRITE_MEMORY, MEMTYPE_FLASH, pos / 256 % 256, pos % 256]
          ++ padFF pagesize ((data.drop pos).take len)
        match writeFlashGo pagesize data (pos + len) fuel with
        | none => none
        | some txs => some (cmd :: txs)
    else some []

/-- Model of `TwiBootloader::write_flash`: the list of page transactions it
sends (each followed in the code by a blind 5 ms settle sleep). -/
def write_flash (pagesize : Nat) (data : List Nat) (fuel : Nat) :
    Option (List (List Nat)) :=
  writeFlashGo pagesize data 0 fuel

/-- The transaction `write_flash` sends for the chunk at cursor `pos`. -/
def flashTx (pagesize : Nat) (data : List Nat) (pos : Nat) : List Nat :=
  [CMD_WRITE_MEMORY, MEMTYPE_FLASH, pos / 256 % 256, pos % 256]
    ++ padFF pagesize ((data.drop pos).take pagesize)

/-! ### `verify_flash` (src/protocol.rs)

Oracles: `reads k` is the outcome of the k-th `write_then_read` call
(`none` a failed read, `some f` a successful one filling the buffer with
`f 0, f 1, ...`); `switches s` tells whether the s-th
`switch_application(BOOTTYPE_BOOTLOADER)` call succeeds. -/

/-- Observable events of `verify_flash`. -/
inductive VEvent where
  | switchBoot
  | sleepMs (ms : Nat)
  | readTx (pos len : Nat) (ok : Bool)
  deriving DecidableEq, Repr

/-- Errors of `verify_flash`: a failed mode switch, a read that failed again
after the recovery cycle (at block offset `pos`), or a content mismatch
reported at block offset `pos`. -/
inductive VErr where
  | switchFail
  | readFatal (pos : Nat)
  | mismatch (pos : Nat)
  deriving DecidableEq, Repr

/-- Loop of `verify_flash`: `pos` the block cursor, `k` the next read-call
index, `s` the next switch-call index. -/
def verifyGo (reads : Nat → Option (Nat → Nat)) (switches : Nat → Bool)
    (expected : List Nat) :
    Nat → Nat → Nat → Except VErr Unit × List VEvent
  | pos, k, s =>
    if _h : pos < expected.length then
      let len := min READ_BLOCK_SIZE (expected.length - pos)
      match reads k with
      | some f =>
        if (List.range len).map f = (expected.drop pos).take len then
          let p := verifyGo reads switches expected (pos + len) (k + 1) s
          (p.1, .readTx pos len true :: p.2)
        else (.error (.mismatch pos), [.readTx pos len true])
      | none =>
        if switches s then
          match reads (k + 1) with
          | some f =>
            if (List.range len).map f = (expected.drop pos).take len then
              let p := verifyGo reads switches expected (pos + len) (k + 2) (s + 1)
              (p.1, .readTx pos len false :: .switchBoot :: .sleepMs 100 ::
                .readTx pos len true :: p.2)
            else
              (.error (.mismatch pos), [.readTx pos len false, .switchBoot,
                .sleepMs 100, .readTx pos len true])
          | none =>
            (.error (.readFatal pos), [.readTx pos len false, .switchBoot,
              .sleepMs 100, .readTx pos len false])
        else (.error .switchFail, [.readTx pos len false, .switchBoot])
    else (.ok (), [])
  termination_by pos _ _ => expected.length - pos
  decreasing_by
    all_goals
      have h1 : 0 < READ_BLOCK_SIZE ⊓ (expected.length - pos) :=
        lt_inf_iff.mpr ⟨by decide, by omega⟩
      omega

/-- Model of `TwiBootloader::verify_flash`: initial bootloader-mode switch,
50 ms settle sleep, then the block loop. -/
def verify_flash (reads : Nat → Option (Nat → Nat)) (switches : Nat → Bool)
    (expected : List Nat) : Except VErr Unit × List VEvent :=
  if switches 0 then
    let p := verifyGo reads switches expected 0 0 1
    (p.1, .switchBoot :: .sleepMs 50 :: p.2)
  else (.error .switchFail, [.switchBoot])

/-! ### Derived notions used in theorem statements -/

/-- Byte the device reports at flash address `a` when every read succeeds
and the k-th read fills the buffer from `F k` (blocks are 128 bytes). -/
def deviceByte (F : Nat → Nat → Nat) (a : Nat) : Nat :=
  F (a / READ_BLOCK_SIZE) (a % READ_BLOCK_SIZE)

/-- Check that, walking the event list with `prev` as the previous event,
every `switchBoot` is immediately preceded by a failed read transaction:
recovery mode switches happen only right after an outright read failure. -/
def okAfter : VEvent → List VEvent → Bool
  | _, [] => true
  | prev, e :: rest =>
    (match e, prev with
     | .switchBoot, .readTx _ _ false => true
     | .switchBoot, _ => false
     | _, _ => true) && okAfter e rest

/-- Number of `switchBoot` events in a trace. -/
def switchCount (evs : List VEvent) : Nat :=
  (evs.filter fun e => match e with | .switchBoot => true | _ => false).length

/-- Number of characters of a valid UTF-8 byte list (its non-continuation
bytes each start one character). -/
def utf8CharCount (l : List Nat) : Nat :=
  (l.filter fun b => !isCont b).length

/-- Does `processLine` reach the Data-record write branch on this line?
True exactly when the trimmed line starts with the record marker, the
8-byte header region parses as hexadecimal with record type 0, and the full
declared payload is present.  (Lines with this property are the only ones
that can change the parser state.) -/
def reachesDataBranch (line0 : List Nat) : Bool :=
  let line := trimRust line0
  if line = [] ∨ line.head? ≠ some 58 then false
  else
    let hexData := line.drop 1
    if hexData.length < 8 then false
    else
      match strSlice hexData 0 2, strSlice hexData 2 6, strSlice hexData 6 8 with
      | some s1, some s2, some s3 =>
        match fromStrRadix16 255 s1, fromStrRadix16 65535 s2,
            fromStrRadix16 255 s3 with
        | some bc, some _, some rt =>
          rt = 0 && !(hexData.length < 8 + bc * 2)
        | _, _, _ => false
      | _, _, _ => false

/-! ## Helper lemmas -/

theorem flashTx_length (ps : Nat) (data : List Nat) (pos : Nat) :
    (flashTx ps data pos).length = 4 + ps := by
  have h : ((data.drop pos).take ps).length ≤ ps := by
    simp [List.length_take]
  simp [flashTx, padFF, List.length_append, List.length_replicate]
  omega

theorem take_min_eq_take (l : List Nat) (ps : Nat) :
    l.take (min l.length ps) = l.take ps := by
  rcases Nat.le_total l.length ps with h | h
  · rw [min_eq_left h, List.take_of_length_le (le_refl _), List.take_of_length_le h]
  · rw [min_eq_right h]

theorem writeFlashGo_spec (ps : Nat) (data : List Nat) (hps : 1 ≤ ps) :
    ∀ fuel pos, data.length - pos ≤ fuel →
      writeFlashGo ps data pos fuel =
        some ((List.range ((data.length - pos + ps - 1) / ps)).map
          fun j => flashTx ps data (pos + j * ps)) := by
  intro fuel
  induction fuel with
  | zero =>
    intro pos h
    have hge : ¬ pos < data.length := by omega
    have hz : data.length - pos = 0 := by omega
    unfold writeFlashGo
    simp only [hge, if_false, hz]
    have : (0 + ps - 1) / ps = 0 := by
      rw [Nat.zero_add]
      exact Nat.div_eq_of_lt (by omega)
    rw [this]
    simp
  | succ fuel ih =>
    intro pos h
    unfold writeFlashGo
    by_cases hp : pos < data.length
    · simp only [hp, if_true]
      have hlen1 : 1 ≤ min (data.length - pos) ps := by
        have : 1 ≤ data.length - pos := by omega
        exact le_min this hps
      rw [ih (pos + min (data.length - pos) ps) (by omega)]
      have htake : (data.drop pos).take (min (data.length - pos) ps) =
          (data.drop pos).take ps := by
        have hl : (data.drop pos).length = data.length - pos := by
          simp [List.length_drop]
        rw [← hl, take_min_eq_take]
      rcases Nat.le_total (data.length - pos) ps with hc | hc
      · -- final (possibly partial) page: one transaction remains
        have hmin : min (data.length - pos) ps = data.length - pos :=
          min_eq_left hc
        have hz : data.length - (pos + (data.length - pos)) = 0 := by omega
        have hcount0 : (data.length - (pos + min (data.length - pos) ps) + ps - 1) / ps
            = 0 := by
          rw [hmin, hz]
          rw [Nat.zero_add]
          exact Nat.div_eq_of_lt (by omega)
        have hcount1 : (data.length - pos + ps - 1) / ps = 1 := by
          apply Nat.div_eq_of_lt_le
          · omega
          · omega
        rw [hcount0, hcount1]
        have hr1 : List.range 1 = [0] := rfl
        rw [hr1]
        simp [flashTx, htake]
      · -- full page, more to come
        have hmin : min (data.length - pos) ps = ps := min_eq_right hc
        have hcount : (data.length - pos + ps - 1) / ps =
            (data.length - (pos + ps) + ps - 1) / ps + 1 := by
          have h1 : data.length - pos + ps - 1 = (data.length - (pos + ps) + ps - 1) + ps := by
            omega
          rw [h1, Nat.add_div_right _ (by omega)]
        rw [hmin] at htake ⊢
        rw [hcount, List.range_succ_eq_map, List.map_cons, List.map_map]
        have hfun : ((fun j => flashTx ps data (pos + j * ps)) ∘ Nat.succ) =
            fun j => flashTx ps data (pos + ps + j * ps) := by
          funext j
          show flashTx ps data (pos + (j + 1) * ps) = flashTx ps data (pos + ps + j * ps)
          congr 1
          ring
        rw [hfun]
        have hhead : flashTx ps data (pos + 0 * ps) =
            [CMD_WRITE_MEMORY, MEMTYPE_FLASH, pos / 256 % 256, pos % 256]
              ++ padFF ps ((data.drop pos).take ps) := by
          simp [flashTx]
        rw [hhead]
    · simp only [hp, if_false]
      have hz : data.length - pos = 0 := by omega
      rw [hz]
      have : (0 + ps - 1) / ps = 0 := by
        rw [Nat.zero_add]
        exact Nat.div_eq_of_lt (by omega)
      rw [this]
      simp

theorem writeFlashGo_zero_pagesize (data : List Nat) :
    ∀ fuel pos, pos < data.length → writeFlashGo 0 data pos fuel = none := by
  intro fuel
  induction fuel with
  | zero =>
    intro pos hp
    unfold writeFlashGo
    simp [hp]
  | succ fuel ih =>
    intro pos hp
    unfold writeFlashGo
    simp only [hp, if_true]
    have : min (data.length - pos) 0 = 0 := by simp
    rw [this, Nat.add_zero, ih pos hp]

/-! ## Claim C5 -/

/-- C5: `write_flash` sends each chunk as one transaction made of the 4-byte
header (opcode 0x02, memory type 0x01, 16-bit big-endian offset) followed by
exactly `page_size` payload bytes, short final chunks padded with 0xFF, and
advances the cursor by the number of real bytes: the transactions are exactly
the pages at offsets 0, ps, 2·ps, …, `ceil(len/ps)` many, each of total
length `4 + page_size` (so a 300-byte image with page size 128 issues 3
transactions at offsets 0, 128, 256, the last padded from 44 real bytes). -/
theorem write_flash_transactions (ps : Nat) (data : List Nat) (fuel : Nat)
    (hps : 1 ≤ ps) (hfuel : data.length ≤ fuel) :
    write_flash ps data fuel =
      some ((List.range ((data.length + ps - 1) / ps)).map
        fun j => flashTx ps data (j * ps)) ∧
    ∀ pos, (flashTx ps data pos).length = 4 + ps := by
  constructor
  · have h := writeFlashGo_spec ps data hps fuel 0 (by omega)
    simpa [write_flash] using h
  · intro pos
    exact flashTx_length ps data pos

/-- Witness for C5 at the spec's example: 300-byte image, page size 128,
three transactions at offsets 0, 128, 256. -/
theorem write_flash_transactions_witness :
    write_flash 128 (List.replicate 300 1) 300 =
      some ((List.range 3).map fun j => flashTx 128 (List.replicate 300 1) (j * 128)) ∧
    ∀ pos, (flashTx 128 (List.replicate 300 1) pos).length = 4 + 128 :=
  write_flash_transactions 128 (List.replicate 300 1) 300 (by decide) (by decide)

/-! ## Claim C10 -/

/-- C10: `write_flash` terminates for every buffer when `page_size ≥ 1`,
issuing exactly `ceil(len/page_size)` page transactions; with
`page_size = 0` (the value `TwiBootloader::new` starts with, before
`connect` populates chip info) and a non-empty buffer the loop never
advances (no fuel bound suffices). -/
theorem write_flash_termination (ps : Nat) (data : List Nat) (fuel : Nat) :
    (1 ≤ ps → data.length ≤ fuel →
      ∃ txs, write_flash ps data fuel = some txs ∧
        txs.length = (data.length + ps - 1) / ps) ∧
    (data ≠ [] → write_flash 0 data fuel = none) ∧
    TwiBootloader.new.pagesize = 0 := by
  refine ⟨?_, ?_, rfl⟩
  · intro hps hfuel
    have h : write_flash ps data fuel =
        some ((List.range ((data.length + ps - 1) / ps)).map
          fun j => flashTx ps data (j * ps)) := by
      have h0 := writeFlashGo_spec ps data hps fuel 0 (by omega)
      simpa [write_flash] using h0
    exact ⟨_, h, by simp⟩
  · intro hne
    have hpos : 0 < data.length := List.length_pos.mpr hne
    exact writeFlashGo_zero_pagesize data fuel 0 hpos

/-- Witness for C10: the 300-byte image with page size 128 terminates in 3
transactions; with page size 0 a singleton buffer never terminates. -/
theorem write_flash_termination_witness :
    (∃ txs, write_flash 128 (List.replicate 300 1) 300 = some txs ∧
      txs.length = 3) ∧
    write_flash 0 [1] 5 = none := by
  constructor
  · obtain ⟨txs, h1, h2⟩ :=
      (write_flash_termination 128 (List.replicate 300 1) 300).1
        (by decide) (by decide)
    exact ⟨txs, h1, h2⟩
  · exact (write_flash_termination 0 [1] 5).2.1 (by decide)

/-! ## Claim C1 -/

/-- C1 counterexample: with an always-failing underlying write primitive,
`write_with_retry` makes 51 underlying write attempts before failing, not
50 as the claim states. -/
theorem write_with_retry_attempts_cex :
    attemptsIn (write_with_retry fun _ => .error 0).2 = 51 ∧
    ¬ attemptsIn (write_with_retry fun _ => .error 0).2 = 50 := by
  exact ⟨by decide, by decide⟩

/-- C1 (amended): with an always-failing underlying write (failing with
`f k` on the k-th call), `write_with_retry` fails only after exactly 51
attempts — the initial try plus `WRITE_RETRY_COUNT = 50` retries — with the
fixed 2 ms delay between each pair of consecutive attempts, never fewer,
and the resulting error reports the last underlying error (`f 50`) together
with the retry count (50). -/
theorem write_with_retry_exhaustion (f : Nat → Nat) :
    (write_with_retry fun k => .error (f k)).1 =
      .error ⟨WRITE_RETRY_COUNT, f WRITE_RETRY_COUNT⟩ ∧
    attemptsIn (write_with_retry fun k => .error (f k)).2 =
      WRITE_RETRY_COUNT + 1 ∧
    (write_with_retry fun k => .error (f k)).2 =
      ((List.range WRITE_RETRY_COUNT).map
        fun k => [WEvent.att k, WEvent.sleepMs WRITE_RETRY_DELAY_MS]).flatten
        ++ [WEvent.att WRITE_RETRY_COUNT] := by
  refine ⟨rfl, rfl, rfl⟩

/-! ## Concrete counterexamples for C2, C7, C8, C9 -/

/-- C2 counterexample: with `bootloader_start = 4`, the Data record
`:02000300AABB` (2 bytes at address 3) reaches past the boundary, yet
parsing succeeds: byte 0xAA lands at address 3 and byte 0xBB — aimed at
address 4 — is silently dropped, with no `AddressConflictError`. -/
theorem parse_hex_straddle_cex :
    parse_hex_file [58, 48, 50, 48, 48, 48, 51, 48, 48, 65, 65, 66, 66]
      (some 4) = some (.ok [255, 255, 255, 170]) := by
  decide

/-- C7 counterexample: a raw-binary file of 5 bytes passes through
`read_file_with_bootloader_info` unchecked even though the
`bootloader_start` handed to it is 2: the returned buffer is longer than
the boundary. -/
theorem read_binary_unchecked_cex :
    read_file_with_bootloader_info [0, 0, 0, 0, 0] .binary 2 =
      some (.ok [0, 0, 0, 0, 0]) ∧
    2 < ([0, 0, 0, 0, 0] : List Nat).length := by
  exact ⟨rfl, by decide⟩

/-- C8 counterexample: the line `:é234567` has 8 characters — shorter than
the 9-character minimum header — yet it is not skipped: its first two bytes
after the marker decode as the character `é`, which is not a hex numeral,
so parsing fails with the byte-count error (the skip test is on bytes, not
characters). -/
theorem short_char_line_cex :
    utf8CharCount [58, 195, 169, 50, 51, 52, 53, 54, 55] = 8 ∧
    parse_hex_file [58, 195, 169, 50, 51, 52, 53, 54, 55] (some 4) =
      some (.error .invalidByteCount) := by
  exact ⟨by decide, by decide⟩

/-- C9 counterexample: on the line `:0é000000` the slice of the two
byte-count digits falls inside the two-byte encoding of `é`, which in Rust
panics (byte index 2 is not a char boundary): `parse_hex_file` is not
total. -/
theorem parse_panic_cex :
    parse_hex_file [58, 48, 195, 169, 48, 48, 48, 48, 48, 48] (some 4) =
      none := by
  decide

/-! ## Claim C2 (amended theorem) -/

/-- Unfolding helper: on a line whose trimmed form starts with the record
marker and whose 8-byte header region parses, `processLine` reduces to the
record-type dispatch of the Rust `match record_type`. -/
theorem processLine_header (bs : Nat) (st : HexState)
    (line0 line s1 s2 s3 : List Nat) (bc addr rt : Nat)
    (htrim : trimRust line0 = line)
    (hhead : line.head? = some 58)
    (hlen : ¬ (line.drop 1).length < 8)
    (hs1 : strSlice (line.drop 1) 0 2 = some s1)
    (hbc : fromStrRadix16 255 s1 = some bc)
    (hs2 : strSlice (line.drop 1) 2 6 = some s2)
    (haddr : fromStrRadix16 65535 s2 = some addr)
    (hs3 : strSlice (line.drop 1) 6 8 = some s3)
    (hrt : fromStrRadix16 255 s3 = some rt) :
    processLine bs st line0 =
      (if rt = 0 then
        (if (line.drop 1).length < 8 + bc * 2 then LineResult.cont st
         else if bs ≤ addr then LineResult.fatal (ParseErr.addressConflict addr)
         else
           match writeBytes bs (line.drop 1) addr 0 bc st.result with
           | none => LineResult.panic
           | some (Except.error e) => LineResult.fatal e
           | some (Except.ok buf) =>
             LineResult.cont ⟨buf, max st.max_address ((addr + bc) % 65536)⟩)
       else if rt = 1 then LineResult.eof st
       else LineResult.cont st) := by
  have hcond : ¬ (line = [] ∨ line.head? ≠ some 58) := by
    rintro (h | h)
    · rw [h] at hhead
      simp at hhead
    · exact h hhead
  simp only [processLine, htrim, if_neg hcond, if_neg hlen, hs1, hbc, hs2,
    haddr, hs3, hrt]

/-- C2 (amended): a Data record whose *start* address is at or above
`bootloader_start` makes the parse fail with the address-conflict error
carrying that address (for any parser state and any line whose trimmed
form is such a record); a record that merely extends past the boundary is
not rejected, its out-of-range bytes being silently dropped (see the
straddle counterexample). -/
theorem processLine_address_conflict (bs : Nat) (st : HexState)
    (line0 line s1 s2 s3 : List Nat) (byte_count address : Nat)
    (htrim : trimRust line0 = line)
    (hhead : line.head? = some 58)
    (hlen : ¬ (line.drop 1).length < 8)
    (hs1 : strSlice (line.drop 1) 0 2 = some s1)
    (hbc : fromStrRadix16 255 s1 = some byte_count)
    (hs2 : strSlice (line.drop 1) 2 6 = some s2)
    (haddr : fromStrRadix16 65535 s2 = some address)
    (hs3 : strSlice (line.drop 1) 6 8 = some s3)
    (hrt : fromStrRadix16 255 s3 = some 0)
    (hfull : ¬ (line.drop 1).length < 8 + byte_count * 2)
    (hconf : bs ≤ address) :
    processLine bs st line0 = .fatal (.addressConflict address) := by
  rw [processLine_header bs st line0 line s1 s2 s3 byte_count address 0
    htrim hhead hlen hs1 hbc hs2 haddr hs3 hrt]
  rw [if_pos rfl, if_neg hfull, if_pos hconf]

/-- Witness for C2 at the spec's example: the record `:011C000000`
(1 byte at address 0x1C00) with `bootloader_start = 0x1C00` is rejected
with `AddressConflictError(0x1C00)`. -/
theorem processLine_address_conflict_witness :
    processLine 7168 ⟨[], 0⟩ [58, 48, 49, 49, 67, 48, 48, 48, 48, 48, 48] =
      .fatal (.addressConflict 7168) :=
  processLine_address_conflict 7168 ⟨[], 0⟩
    [58, 48, 49, 49, 67, 48, 48, 48, 48, 48, 48]
    [58, 48, 49, 49, 67, 48, 48, 48, 48, 48, 48]
    [48, 49] [49, 67, 48, 48] [48, 48] 1 7168
    (by decide) (by decide) (by decide) (by decide) (by decide) (by decide)
    (by decide) (by decide) (by decide) (by decide) (by decide)

/-! ## Claim C8 (amended theorem) -/

/-- C8 (amended): `parse_hex_file` skips without error: blank/whitespace
lines, lines not starting with the record marker, lines whose byte length
after the marker is below the 8-byte header minimum (the Rust test is on
bytes, not characters — see the counterexample), and Data records whose
declared byte_count implies a payload longer than what remains on the
line; an EndOfFile record (type 0x01) terminates parsing immediately with
all remaining lines ignored, and any other record type is ignored with
parsing continuing. -/
theorem parse_skip_and_eof_spec (bs : Nat) (st : HexState)
    (line0 line : List Nat) :
    (trimRust line0 = line → (line = [] ∨ line.head? ≠ some 58) →
      processLine bs st line0 = .cont st) ∧
    (trimRust line0 = line → line.head? = some 58 →
      (line.drop 1).length < 8 →
      processLine bs st line0 = .cont st) ∧
    (∀ s1 s2 s3 byte_count address,
      trimRust line0 = line → line.head? = some 58 →
      ¬ (line.drop 1).length < 8 →
      strSlice (line.drop 1) 0 2 = some s1 →
      fromStrRadix16 255 s1 = some byte_count →
      strSlice (line.drop 1) 2 6 = some s2 →
      fromStrRadix16 65535 s2 = some address →
      strSlice (line.drop 1) 6 8 = some s3 →
      fromStrRadix16 255 s3 = some 0 →
      (line.drop 1).length < 8 + byte_count * 2 →
      processLine bs st line0 = .cont st) ∧
    (∀ s1 s2 s3 byte_count address,
      trimRust line0 = line → line.head? = some 58 →
      ¬ (line.drop 1).length < 8 →
      strSlice (line.drop 1) 0 2 = some s1 →
      fromStrRadix16 255 s1 = some byte_count →
      strSlice (line.drop 1) 2 6 = some s2 →
      fromStrRadix16 65535 s2 = some address →
      strSlice (line.drop 1) 6 8 = some s3 →
      fromStrRadix16 255 s3 = some 1 →
      processLine bs st line0 = .eof st) ∧
    (∀ s1 s2 s3 byte_count address record_type,
      trimRust line0 = line → line.head? = some 58 →
      ¬ (line.drop 1).length < 8 →
      strSlice (line.drop 1) 0 2 = some s1 →
      fromStrRadix16 255 s1 = some byte_count →
      strSlice (line.drop 1) 2 6 = some s2 →
      fromStrRadix16 65535 s2 = some address →
      strSlice (line.drop 1) 6 8 = some s3 →
      fromStrRadix16 255 s3 = some record_type →
      record_type ≠ 0 → record_type ≠ 1 →
      processLine bs st line0 = .cont st) ∧
    (∀ rest st', processLine bs st line0 = .eof st' →
      processLines bs (line0 :: rest) st = some (.ok st')) := by
  refine ⟨?_, ?_, ?_, ?_, ?_, ?_⟩
  · intro htrim hcond
    simp only [processLine, htrim, if_pos hcond]
  · intro htrim hhead hshort
    have hcond : ¬ (line = [] ∨ line.head? ≠ some 58) := by
      rintro (h | h)
      · rw [h] at hhead
        simp at hhead
      · exact h hhead
    simp only [processLine, htrim, if_neg hcond, if_pos hshort]
  · intro s1 s2 s3 byte_count address htrim hhead hlen hs1 hbc hs2 haddr hs3
      hrt hfull
    rw [processLine_header bs st line0 line s1 s2 s3 byte_count address 0
      htrim hhead hlen hs1 hbc hs2 haddr hs3 hrt]
    rw [if_pos rfl, if_pos hfull]
  · intro s1 s2 s3 byte_count address htrim hhead hlen hs1 hbc hs2 haddr hs3
      hrt
    rw [processLine_header bs st line0 line s1 s2 s3 byte_count address 1
      htrim hhead hlen hs1 hbc hs2 haddr hs3 hrt]
    rw [if_neg (by decide : ¬ (1 : Nat) = 0), if_pos rfl]
  · intro s1 s2 s3 byte_count address record_type htrim hhead hlen hs1 hbc
      hs2 haddr hs3 hrt hrt0 hrt1
    rw [processLine_header bs st line0 line s1 s2 s3 byte_count address
      record_type htrim hhead hlen hs1 hbc hs2 haddr hs3 hrt]
    rw [if_neg hrt0, if_neg hrt1]
  · intro rest st' heof
    simp only [processLines, heof]

/-- Witness for C8: instances of every skip rule and of end-of-file
termination on concrete lines with `bootloader_start = 4`. -/
theorem parse_skip_and_eof_spec_witness :
    processLine 4 ⟨[255, 255, 255, 255], 0⟩ [32, 120, 32] =
      .cont ⟨[255, 255, 255, 255], 0⟩ ∧
    processLine 4 ⟨[255, 255, 255, 255], 0⟩ [58, 48, 49] =
      .cont ⟨[255, 255, 255, 255], 0⟩ ∧
    processLine 4 ⟨[255, 255, 255, 255], 0⟩
      [58, 48, 50, 48, 48, 48, 48, 48, 48, 65, 65] =
      .cont ⟨[255, 255, 255, 255], 0⟩ ∧
    processLine 4 ⟨[255, 255, 255, 255], 0⟩
      [58, 48, 48, 48, 48, 48, 48, 48, 51] =
      .cont ⟨[255, 255, 255, 255], 0⟩ ∧
    processLines 4 ([58, 48, 48, 48, 48, 48, 48, 48, 49] ::
        [[58, 120]]) ⟨[255, 255, 255, 255], 0⟩ =
      some (.ok ⟨[255, 255, 255, 255], 0⟩) := by
  refine ⟨?_, ?_, ?_, ?_, ?_⟩
  · exact (parse_skip_and_eof_spec 4 ⟨[255, 255, 255, 255], 0⟩ [32, 120, 32]
      [120]).1 (by decide) (by decide)
  · exact (parse_skip_and_eof_spec 4 ⟨[255, 255, 255, 255], 0⟩ [58, 48, 49]
      [58, 48, 49]).2.1 (by decide) (by decide) (by decide)
  · exact (parse_skip_and_eof_spec 4 ⟨[255, 255, 255, 255], 0⟩
      [58, 48, 50, 48, 48, 48, 48, 48, 48, 65, 65]
      [58, 48, 50, 48, 48, 48, 48, 48, 48, 65, 65]).2.2.1
      [48, 50] [48, 48, 48, 48] [48, 48] 2 0
      (by decide) (by decide) (by decide) (by decide) (by decide) (by decide)
      (by decide) (by decide) (by decide) (by decide)
  · exact (parse_skip_and_eof_spec 4 ⟨[255, 255, 255, 255], 0⟩
      [58, 48, 48, 48, 48, 48, 48, 48, 51]
      [58, 48, 48, 48, 48, 48, 48, 48, 51]).2.2.2.2.1
      [48, 48] [48, 48, 48, 48] [48, 51] 0 0 3
      (by decide) (by decide) (by decide) (by decide) (by decide) (by decide)
      (by decide) (by decide) (by decide) (by decide) (by decide)
  · refine (parse_skip_and_eof_spec 4 ⟨[255, 255, 255, 255], 0⟩
      [58, 48, 48, 48, 48, 48, 48, 48, 49]
      [58, 48, 48, 48, 48, 48, 48, 48, 49]).2.2.2.2.2 [[58, 120]]
      ⟨[255, 255, 255, 255], 0⟩ ?_
    exact (parse_skip_and_eof_spec 4 ⟨[255, 255, 255, 255], 0⟩
      [58, 48, 48, 48, 48, 48, 48, 48, 49]
      [58, 48, 48, 48, 48, 48, 48, 48, 49]).2.2.2.1
      [48, 48] [48, 48, 48, 48] [48, 49] 0 0
      (by decide) (by decide) (by decide) (by decide) (by decide) (by decide)
      (by decide) (by decide) (by decide)

/-! ## Parser state invariants (for C4 and C7) -/

theorem writeBytes_ok_length (bs : Nat) (hd : List Nat) (addr : Nat) :
    ∀ remain i buf buf',
      writeBytes bs hd addr i remain buf = some (.ok buf') →
      buf'.length = buf.length := by
  intro remain
  induction remain with
  | zero =>
    intro i buf buf' h
    simp only [writeBytes] at h
    cases h
    rfl
  | succ remain ih =>
    intro i buf buf' h
    simp only [writeBytes] at h
    split at h
    · cases h
    · split at h
      · cases h
      · have := ih (i + 1) _ buf' h
        rw [this]
        split
        · simp
        · rfl

theorem processLine_state_step (bs : Nat) (st st' : HexState)
    (line : List Nat)
    (h : processLine bs st line = .cont st' ∨
      processLine bs st line = .eof st') :
    st'.result.length = st.result.length ∧
    (reachesDataBranch line = true ∨ st' = st) := by
  rcases h with h | h <;>
  · simp only [processLine] at h
    split at h
    · first
      | (cases h; exact ⟨rfl, Or.inr rfl⟩)
      | (cases h)
    · split at h
      · first
        | (cases h; exact ⟨rfl, Or.inr rfl⟩)
        | (cases h)
      · rename ¬ (_ = [] ∨ _) => hcond
        rename ¬ _ < 8 => hlen8
        split at h
        · cases h
        · rename strSlice _ 0 2 = some _ => hs1
          split at h
          · cases h
          · rename fromStrRadix16 255 _ = some _ => hbc
            split at h
            · cases h
            · rename strSlice _ 2 6 = some _ => hs2
              split at h
              · cases h
              · rename fromStrRadix16 65535 _ = some _ => haddr
                split at h
                · cases h
                · rename strSlice _ 6 8 = some _ => hs3
                  split at h
                  · cases h
                  · rename fromStrRadix16 255 _ = some _ => hrt
                    split at h
                    · rename _ = 0 => hrt0
                      split at h
                      · first
                        | (cases h; exact ⟨rfl, Or.inr rfl⟩)
                        | (cases h)
                      · rename ¬ _ < 8 + _ * 2 => hfull
                        split at h
                        · cases h
                        · split at h
                          · cases h
                          · cases h
                          · rename writeBytes _ _ _ _ _ _ = some (.ok _) => hwb
                            first
                              | (cases h;
                                 refine ⟨writeBytes_ok_length _ _ _ _ _ _ _ hwb,
                                   Or.inl ?_⟩;
                                 simp only [reachesDataBranch, if_neg hcond,
                                   if_neg hlen8, hs1, hs2, hs3, hbc, haddr, hrt];
                                 simp only [Bool.and_eq_true, decide_eq_true_eq,
                                   Bool.not_eq_true', decide_eq_false_iff_not];
                                 exact ⟨hrt0, hfull⟩)
                              | (cases h)
                    · split at h
                      · first
                        | (cases h; exact ⟨rfl, Or.inr rfl⟩)
                        | (cases h)
                      · first
                        | (cases h; exact ⟨rfl, Or.inr rfl⟩)
                        | (cases h)

theorem processLines_ok_spec (bs : Nat) :
    ∀ (lns : List (List Nat)) (st st' : HexState),
      processLines bs lns st = some (.ok st') →
      st'.result.length = st.result.length ∧
      ((∀ ln ∈ lns, reachesDataBranch ln = false) → st' = st) := by
  intro lns
  induction lns with
  | nil =>
    intro st st' h
    simp only [processLines] at h
    cases h
    exact ⟨rfl, fun _ => rfl⟩
  | cons ln rest ih =>
    intro st st' h
    cases hpl : processLine bs st ln with
    | panic =>
      simp only [processLines, hpl] at h
      exact Option.noConfusion h
    | fatal e =>
      simp only [processLines, hpl] at h
      exact Except.noConfusion (Option.some.inj h)
    | eof st1 =>
      simp only [processLines, hpl, Option.some.injEq, Except.ok.injEq] at h
      rw [← h]
      have hstep := processLine_state_step bs st st1 ln (Or.inr hpl)
      refine ⟨hstep.1, fun hnone => ?_⟩
      rcases hstep.2 with hd | hd
      · have hfalse := hnone ln (by simp)
        rw [hfalse] at hd
        cases hd
      · exact hd
    | cont st1 =>
      simp only [processLines, hpl] at h
      have hstep := processLine_state_step bs st st1 ln (Or.inl hpl)
      obtain ⟨hlen, hsame⟩ := ih st1 st' h
      constructor
      · rw [hlen, hstep.1]
      · intro hnone
        rcases hstep.2 with hd | hd
        · have hfalse := hnone ln (by simp)
          rw [hfalse] at hd
          cases hd
        · rw [hd] at hsame
          exact hsame (fun l hl => hnone l (by simp [hl]))

theorem parse_hex_file_ok_spec (data : List Nat) (bsOpt : Option Nat)
    (l : List Nat)
    (h : parse_hex_file data bsOpt = some (.ok l)) :
    ∃ st, parseHexCore data (bsOpt.getD 0x1C00) = some (.ok st) ∧
      l = st.result.take (min st.max_address (bsOpt.getD 0x1C00)) ∧
      st.result.length = bsOpt.getD 0x1C00 := by
  simp only [parse_hex_file] at h
  split at h
  · cases h
  · cases hcore : parseHexCore data (bsOpt.getD 0x1C00) <;> rw [hcore] at h
    · cases h
    · rename_i r
      cases r with
      | error e => cases h
      | ok st =>
        cases h
        refine ⟨st, rfl, rfl, ?_⟩
        have := (processLines_ok_spec (bsOpt.getD 0x1C00) (linesOf data)
          ⟨List.replicate (bsOpt.getD 0x1C00) 0xFF, 0⟩ st hcore).1
        simpa using this

/-! ## Claim C4 -/

/-- C4: for every valid HEX input, parse is deterministic (it is a pure
function of the input) and the returned image's length equals
`min(max_written_address, bootloader_start)`, where `max_written_address`
is the parser's running maximum of `address + byte_count` over the Data
records it consumed; in particular an input none of whose lines reaches
the Data-record branch yields a zero-length image. -/
theorem parse_hex_length_spec (data : List Nat) (bsOpt : Option Nat)
    (l : List Nat)
    (h : parse_hex_file data bsOpt = some (.ok l)) :
    (∃ st, parseHexCore data (bsOpt.getD 0x1C00) = some (.ok st) ∧
      l.length = min st.max_address (bsOpt.getD 0x1C00)) ∧
    ((∀ ln ∈ linesOf data, reachesDataBranch ln = false) → l = []) := by
  obtain ⟨st, hcore, hl, hlen⟩ := parse_hex_file_ok_spec data bsOpt l h
  constructor
  · refine ⟨st, hcore, ?_⟩
    rw [hl, List.length_take, hlen]
    rcases Nat.le_total st.max_address (bsOpt.getD 0x1C00) with hc | hc
    · rw [min_eq_left hc, min_eq_left hc]
    · rw [min_eq_right hc, min_eq_right (le_refl _)]
  · intro hnone
    have hsame := (processLines_ok_spec (bsOpt.getD 0x1C00) (linesOf data)
      ⟨List.replicate (bsOpt.getD 0x1C00) 0xFF, 0⟩ st hcore).2 hnone
    rw [hl, hsame]
    simp

/-- Witness for C4: the spec's sample record decodes to a 16-byte image
(`min(16, 0x1C00) = 16`), and the EndOfFile-only input yields the empty
image. -/
theorem parse_hex_length_spec_witness :
    (∃ st, parseHexCore
        [58, 49, 48, 48, 48, 48, 48, 48, 48, 48, 49, 48, 50, 48, 51, 48,
         52, 48, 53, 48, 54, 48, 55, 48, 56, 48, 57, 48, 48, 48, 49, 48,
         50, 48, 51, 48, 52, 48, 53, 48, 54, 54, 65] 0x1C00 =
        some (.ok st) ∧
      (16 : Nat) = min st.max_address 0x1C00) ∧
    ([] : List Nat) = [] := by
  constructor
  · have h := (parse_hex_length_spec
      [58, 49, 48, 48, 48, 48, 48, 48, 48, 48, 49, 48, 50, 48, 51, 48,
       52, 48, 53, 48, 54, 48, 55, 48, 56, 48, 57, 48, 48, 48, 49, 48,
       50, 48, 51, 48, 52, 48, 53, 48, 54, 54, 65] (some 0x1C00)
      [1, 2, 3, 4, 5, 6, 7, 8, 9, 0, 1, 2, 3, 4, 5, 6] (by decide)).1
    simpa using h
  · have h := (parse_hex_length_spec [58, 48, 48, 48, 48, 48, 48, 48, 49]
      (some 4) [] (by decide)).2 (by decide)
    exact h

/-! ## Claim C7 (amended theorem) -/

/-- C7 (amended): every buffer obtained through the HEX parsing path
(explicit `.hex` format, or `.auto` with a leading record marker) has
length at most the `bootloader_start` obtained from the device; raw binary
buffers (`.binary`, or `.auto` without a leading marker) are returned
as-is, unchecked against the boundary (see the counterexample). -/
theorem hex_image_length_le_boundary (data : List Nat) (bs : Nat)
    (l : List Nat)
    (h : read_file_with_bootloader_info data .hex bs = some (.ok l) ∨
      (data.head? = some 58 ∧
        read_file_with_bootloader_info data .auto bs = some (.ok l))) :
    l.length ≤ bs := by
  have hparse : parse_hex_file data (some bs) = some (.ok l) := by
    rcases h with h | ⟨hmark, h⟩
    · simpa [read_file_with_bootloader_info] using h
    · simpa [read_file_with_bootloader_info, hmark] using h
  obtain ⟨st, _, hl, hlen⟩ := parse_hex_file_ok_spec data (some bs) l hparse
  rw [hl, List.length_take, hlen]
  simp only [Option.getD_some] at *
  omega

/-- Witness for C7: the EndOfFile-only HEX file against boundary 4 yields
the empty image, of length at most 4. -/
theorem hex_image_length_le_boundary_witness :
    ([] : List Nat).length ≤ 4 :=
  hex_image_length_le_boundary [58, 48, 48, 48, 48, 48, 48, 48, 49] 4 []
    (Or.inl (by decide))

/-! ## ASCII totality of the parser (for C9) -/

theorem mem_splitNl (l : List Nat) : ∀ s ∈ splitNl l, ∀ b ∈ s, b ∈ l := by
  induction l with
  | nil =>
    intro s hs
    simp [splitNl] at hs
  | cons x rest ih =>
    intro s hs b hb
    simp only [splitNl] at hs
    split at hs
    · rcases List.mem_cons.mp hs with rfl | hs1
      · rcases List.mem_singleton.mp hb with rfl
        rename_i hx
        rw [hx]
        exact List.mem_cons_self _ _
      · exact List.mem_cons_of_mem _ (ih s hs1 b hb)
    · split at hs
      · rcases List.mem_singleton.mp hs with rfl
        rcases List.mem_singleton.mp hb with rfl
        exact List.mem_cons_self _ _
      · rename_i s0 ss heq
        rcases List.mem_cons.mp hs with rfl | hs1
        · rcases List.mem_cons.mp hb with rfl | hb1
          · exact List.mem_cons_self _ _
          · refine List.mem_cons_of_mem _ (ih s0 ?_ b hb1)
            rw [heq]
            exact List.mem_cons_self _ _
        · refine List.mem_cons_of_mem _ (ih s ?_ b hb)
          rw [heq]
          exact List.mem_cons_of_mem _ hs1

theorem mem_stripLineEnd (s : List Nat) : ∀ b ∈ stripLineEnd s, b ∈ s := by
  intro b hb
  simp only [stripLineEnd] at hb
  split at hb
  · rename s.reverse = _ => heq
    rw [← List.mem_reverse, heq]
    exact List.mem_cons_of_mem _ (List.mem_cons_of_mem _
      (List.mem_reverse.mp hb))
  · rename s.reverse = _ => heq
    rw [← List.mem_reverse, heq]
    exact List.mem_cons_of_mem _ (List.mem_reverse.mp hb)
  · exact hb

theorem mem_trimLeftAux : ∀ (fuel : Nat) (l : List Nat), ∀ b ∈ trimLeftAux fuel l, b ∈ l := by
  intro fuel
  induction fuel with
  | zero =>
    intro l b hb
    exact hb
  | succ fuel ih =>
    intro l b hb
    simp only [trimLeftAux] at hb
    split at hb
    · exact hb
    · exact List.mem_of_mem_drop (ih _ b hb)

theorem mem_trimRightAux : ∀ (fuel : Nat) (l : List Nat), ∀ b ∈ trimRightAux fuel l, b ∈ l := by
  intro fuel
  induction fuel with
  | zero =>
    intro l b hb
    exact hb
  | succ fuel ih =>
    intro l b hb
    simp only [trimRightAux] at hb
    split at hb
    · exact hb
    · exact List.mem_of_mem_drop (ih _ b hb)

theorem mem_trimRust (l : List Nat) : ∀ b ∈ trimRust l, b ∈ l := by
  intro b hb
  simp only [trimRust, trimRight, trimLeft] at hb
  have h1 := List.mem_reverse.mp hb
  have h2 := mem_trimRightAux _ _ b h1
  have h3 := List.mem_reverse.mp h2
  exact mem_trimLeftAux _ _ b h3

theorem isCharBoundary_ascii (s : List Nat)
    (hascii : ∀ b ∈ s, b < 128) (i : Nat) (hi : i ≤ s.length) :
    isCharBoundary s i = true := by
  unfold isCharBoundary
  split
  · rfl
  · split
    · rfl
    · rename_i h0 hlen
      have hlt : i < s.length := by omega
      cases hget : s.get? i with
      | none =>
        rw [List.get?_eq_none] at hget
        omega
      | some b =>
        have hmem : b ∈ s := List.get?_mem hget
        have hb := hascii b hmem
        simp [isCont]
        omega

theorem strSlice_ascii (s : List Nat) (a b : Nat) (hab : a ≤ b)
    (hb : b ≤ s.length) (hascii : ∀ x ∈ s, x < 128) :
    strSlice s a b = some ((s.drop a).take (b - a)) := by
  unfold strSlice
  rw [if_pos]
  exact ⟨hab, hb, isCharBoundary_ascii s hascii a (by omega),
    isCharBoundary_ascii s hascii b hb⟩

theorem writeBytes_isSome (bs : Nat) (hd : List Nat) (addr : Nat)
    (hascii : ∀ x ∈ hd, x < 128) :
    ∀ (remain i : Nat) (buf : List Nat),
      8 + 2 * i + 2 * remain ≤ hd.length →
      (writeBytes bs hd addr i remain buf).isSome := by
  intro remain
  induction remain with
  | zero =>
    intro i buf h
    simp [writeBytes]
  | succ r ih =>
    intro i buf h
    simp only [writeBytes,
      strSlice_ascii hd (8 + 2 * i) (8 + 2 * i + 2) (by omega) (by omega)
        hascii]
    split
    · simp
    · exact ih (i + 1) _ (by omega)

theorem processLine_ne_panic (bs : Nat) (st : HexState) (line0 : List Nat)
    (hascii : ∀ x ∈ line0, x < 128) :
    processLine bs st line0 ≠ .panic := by
  have hat : ∀ x ∈ trimRust line0, x < 128 := fun x hx =>
    hascii x (mem_trimRust line0 x hx)
  have had : ∀ x ∈ (trimRust line0).drop 1, x < 128 := fun x hx =>
    hat x (List.mem_of_mem_drop hx)
  intro h
  simp only [processLine] at h
  split at h
  · cases h
  · split at h
    · cases h
    · rename ¬ _ < 8 => hlen8
      have hlen : 8 ≤ ((trimRust line0).drop 1).length := by omega
      simp only [strSlice_ascii ((trimRust line0).drop 1) 0 2 (by omega)
          (by omega) had,
        strSlice_ascii ((trimRust line0).drop 1) 2 6 (by omega) (by omega)
          had,
        strSlice_ascii ((trimRust line0).drop 1) 6 8 (by omega) (by omega)
          had] at h
      split at h
      · cases h
      · rename_i byte_count hbc
        split at h
        · cases h
        · rename_i address haddr
          split at h
          · cases h
          · rename_i record_type hrt
            split at h
            · split at h
              · cases h
              · rename ¬ _ < 8 + _ * 2 => hfull
                split at h
                · cases h
                · split at h
                  · rename writeBytes _ _ _ _ _ _ = none => hwb
                    have hsome := writeBytes_isSome bs
                      ((trimRust line0).drop 1) address had byte_count 0
                      st.result (by omega)
                    rw [hwb] at hsome
                    cases hsome
                  · cases h
                  · cases h
            · split at h
              · cases h
              · cases h

theorem processLines_isSome (bs : Nat) :
    ∀ (lns : List (List Nat)) (st : HexState),
      (∀ ln ∈ lns, ∀ x ∈ ln, x < 128) →
      (processLines bs lns st).isSome := by
  intro lns
  induction lns with
  | nil =>
    intro st _
    simp [processLines]
  | cons ln rest ih =>
    intro st hl
    cases hpl : processLine bs st ln with
    | panic =>
      exact absurd hpl (processLine_ne_panic bs st ln (hl ln (by simp)))
    | fatal e =>
      simp [processLines, hpl]
    | eof st1 =>
      simp [processLines, hpl]
    | cont st1 =>
      simp only [processLines, hpl]
      exact ih st1 (fun l hmem x hx => hl l (by simp [hmem]) x hx)

/-! ## Claim C9 (amended theorem) -/

/-- C9 (amended): `parse_hex_file` is total on ASCII inputs: for every
input all of whose bytes are below 0x80 it returns either a buffer or a
named parse error, never panicking — in particular Data records whose
address plus byte_count exceeds 0xFFFF are handled by wrapping `u16`
arithmetic.  On non-ASCII input it can panic: a multi-byte UTF-8 character
overlapping a header or payload slice boundary aborts the process (see the
counterexample), so totality over arbitrary byte inputs fails. -/
theorem parse_total_on_ascii (data : List Nat) (bsOpt : Option Nat)
    (hascii : ∀ x ∈ data, x < 128) :
    (parse_hex_file data bsOpt).isSome := by
  simp only [parse_hex_file]
  split
  · simp
  · have hl : ∀ ln ∈ linesOf data, ∀ x ∈ ln, x < 128 := by
      intro ln hln x hx
      obtain ⟨s0, hs0, rfl⟩ := List.mem_map.mp hln
      exact hascii x (mem_splitNl data s0 hs0 x (mem_stripLineEnd s0 x hx))
    have hsome : (parseHexCore data (bsOpt.getD 0x1C00)).isSome :=
      processLines_isSome (bsOpt.getD 0x1C00) (linesOf data)
        ⟨List.replicate (bsOpt.getD 0x1C00) 0xFF, 0⟩ hl
    cases hc : parseHexCore data (bsOpt.getD 0x1C00) with
    | none =>
      rw [hc] at hsome
      cases hsome
    | some r =>
      cases r <;> simp

/-- Witness for C9: an all-ASCII input (the spec's sample record) parses
without panic. -/
theorem parse_total_on_ascii_witness :
    (parse_hex_file
      [58, 49, 48, 48, 48, 48, 48, 48, 48, 48, 49, 48, 50, 48, 51, 48,
       52, 48, 53, 48, 54, 48, 55, 48, 56, 48, 57, 48, 48, 48, 49, 48,
       50, 48, 51, 48, 52, 48, 53, 48, 54, 54, 65] (some 0x1C00)).isSome :=
  parse_total_on_ascii
    [58, 49, 48, 48, 48, 48, 48, 48, 48, 48, 49, 48, 50, 48, 51, 48,
     52, 48, 53, 48, 54, 48, 55, 48, 56, 48, 57, 48, 48, 48, 49, 48,
     50, 48, 51, 48, 52, 48, 53, 48, 54, 54, 65] (some 0x1C00) (by decide)

/-! ## Verification loop lemmas (for C3 and C6) -/

theorem map_range_ne_slice (f : Nat → Nat) (expected : List Nat)
    (pos len i0 : Nat) (hi0 : i0 < len) (_hpl : pos + len ≤ expected.length)
    (hne : f i0 ≠ expected.getD (pos + i0) 0) :
    (List.range len).map f ≠ (expected.drop pos).take len := by
  intro heq
  apply hne
  have h1 := congrArg (fun l => (l[i0]?).getD 0) heq
  simp only at h1
  rw [List.getElem?_map, List.getElem?_range hi0, List.getElem?_take,
    if_pos hi0, List.getElem?_drop] at h1
  rw [List.getD_eq_getElem?_getD]
  exact h1

theorem map_range_eq_slice (f : Nat → Nat) (expected : List Nat)
    (pos len : Nat) (hpl : pos + len ≤ expected.length)
    (hptw : ∀ i, i < len → f i = expected.getD (pos + i) 0) :
    (List.range len).map f = (expected.drop pos).take len := by
  have hlt : len ≤ expected.length - pos := by omega
  apply List.ext_getElem
  · simp [List.length_take, List.length_drop]
    omega
  · intro i hi1 hi2
    simp only [List.length_map, List.length_range] at hi1
    have hgd := hptw i hi1
    rw [List.getElem_map, List.getElem_range]
    have hpi : pos + i < expected.length := by omega
    rw [List.getD_eq_getElem expected 0 hpi] at hgd
    rw [List.getElem_take, List.getElem_drop]
    exact hgd

theorem verifyGo_block_mismatch (F : Nat → Nat → Nat) (expected : List Nat)
    (a : Nat) (ha : a < expected.length)
    (hdiff : deviceByte F a ≠ expected.getD a 0) :
    ∀ sc,
      (verifyGo (fun k => some (F k)) (fun _ => true) expected
          (READ_BLOCK_SIZE * (a / READ_BLOCK_SIZE)) (a / READ_BLOCK_SIZE)
          sc).1 =
        .error (.mismatch (READ_BLOCK_SIZE * (a / READ_BLOCK_SIZE))) ∧
      switchCount (verifyGo (fun k => some (F k)) (fun _ => true) expected
          (READ_BLOCK_SIZE * (a / READ_BLOCK_SIZE)) (a / READ_BLOCK_SIZE)
          sc).2 = 0 := by
  intro sc
  have h128 : (0 : Nat) < READ_BLOCK_SIZE := by decide
  have hqr : READ_BLOCK_SIZE * (a / READ_BLOCK_SIZE) + a % READ_BLOCK_SIZE
      = a := Nat.div_add_mod a READ_BLOCK_SIZE
  have hrlt : a % READ_BLOCK_SIZE < READ_BLOCK_SIZE := Nat.mod_lt a h128
  have hposlt : READ_BLOCK_SIZE * (a / READ_BLOCK_SIZE) <
      expected.length := by omega
  unfold verifyGo
  rw [dif_pos hposlt]
  simp only
  have hi0lt : a - READ_BLOCK_SIZE * (a / READ_BLOCK_SIZE) <
      min READ_BLOCK_SIZE
        (expected.length - READ_BLOCK_SIZE * (a / READ_BLOCK_SIZE)) :=
    lt_min (by omega) (by omega)
  have hcmp : (List.range
      (min READ_BLOCK_SIZE
        (expected.length - READ_BLOCK_SIZE * (a / READ_BLOCK_SIZE)))).map
        (F (a / READ_BLOCK_SIZE)) ≠
      (expected.drop (READ_BLOCK_SIZE * (a / READ_BLOCK_SIZE))).take
        (min READ_BLOCK_SIZE
          (expected.length - READ_BLOCK_SIZE * (a / READ_BLOCK_SIZE))) := by
    refine map_range_ne_slice (F (a / READ_BLOCK_SIZE)) expected _ _
      (a - READ_BLOCK_SIZE * (a / READ_BLOCK_SIZE)) hi0lt (by omega) ?_
    have hsum : READ_BLOCK_SIZE * (a / READ_BLOCK_SIZE) +
        (a - READ_BLOCK_SIZE * (a / READ_BLOCK_SIZE)) = a := by
      omega
    have hmod : a - READ_BLOCK_SIZE * (a / READ_BLOCK_SIZE) =
        a % READ_BLOCK_SIZE := by
      omega
    rw [hsum, hmod]
    exact hdiff
  rw [if_neg hcmp]
  exact ⟨rfl, by simp [switchCount]⟩

theorem verifyGo_firstdiff (F : Nat → Nat → Nat) (expected : List Nat)
    (a : Nat) (ha : a < expected.length)
    (hdiff : deviceByte F a ≠ expected.getD a 0)
    (hpre : ∀ b, b < a → deviceByte F b = expected.getD b 0) :
    ∀ d j sc, a / READ_BLOCK_SIZE - j ≤ d → READ_BLOCK_SIZE * j ≤ a →
      (verifyGo (fun k => some (F k)) (fun _ => true) expected
          (READ_BLOCK_SIZE * j) j sc).1 =
        .error (.mismatch (READ_BLOCK_SIZE * (a / READ_BLOCK_SIZE))) ∧
      switchCount (verifyGo (fun k => some (F k)) (fun _ => true) expected
          (READ_BLOCK_SIZE * j) j sc).2 = 0 := by
  have h128 : (0 : Nat) < READ_BLOCK_SIZE := by decide
  have hqr : READ_BLOCK_SIZE * (a / READ_BLOCK_SIZE) + a % READ_BLOCK_SIZE
      = a := Nat.div_add_mod a READ_BLOCK_SIZE
  have hrlt : a % READ_BLOCK_SIZE < READ_BLOCK_SIZE := Nat.mod_lt a h128
  intro d
  induction d with
  | zero =>
    intro j sc h0 hj
    have hj1 : j ≤ a / READ_BLOCK_SIZE := by
      by_contra hcon
      push_neg at hcon
      have hmul : READ_BLOCK_SIZE * (a / READ_BLOCK_SIZE + 1) ≤
          READ_BLOCK_SIZE * j := Nat.mul_le_mul_left _ hcon
      simp only [Nat.mul_add, Nat.mul_one] at hmul
      omega
    have hje : j = a / READ_BLOCK_SIZE := by omega
    rw [hje]
    exact verifyGo_block_mismatch F expected a ha hdiff sc
  | succ d ih =>
    intro j sc h0 hj
    have hj1 : j ≤ a / READ_BLOCK_SIZE := by
      by_contra hcon
      push_neg at hcon
      have hmul : READ_BLOCK_SIZE * (a / READ_BLOCK_SIZE + 1) ≤
          READ_BLOCK_SIZE * j := Nat.mul_le_mul_left _ hcon
      simp only [Nat.mul_add, Nat.mul_one] at hmul
      omega
    by_cases hj2 : a / READ_BLOCK_SIZE ≤ j
    · have hje : j = a / READ_BLOCK_SIZE := by omega
      rw [hje]
      exact verifyGo_block_mismatch F expected a ha hdiff sc
    · -- this block fully matches; the loop advances one whole block
      have hjlt : j + 1 ≤ a / READ_BLOCK_SIZE := by omega
      have hnext : READ_BLOCK_SIZE * j + READ_BLOCK_SIZE ≤ a := by
        have hmul : READ_BLOCK_SIZE * (j + 1) ≤
            READ_BLOCK_SIZE * (a / READ_BLOCK_SIZE) :=
          Nat.mul_le_mul_left _ hjlt
        simp only [Nat.mul_add, Nat.mul_one] at hmul
        omega
      have hposlt : READ_BLOCK_SIZE * j < expected.length := by omega
      have hminfull : min READ_BLOCK_SIZE
          (expected.length - READ_BLOCK_SIZE * j) = READ_BLOCK_SIZE :=
        min_eq_left (by omega)
      have hcmp : (List.range
          (min READ_BLOCK_SIZE (expected.length - READ_BLOCK_SIZE * j))).map
            (F j) =
          (expected.drop (READ_BLOCK_SIZE * j)).take
            (min READ_BLOCK_SIZE (expected.length - READ_BLOCK_SIZE * j)) := by
        rw [hminfull]
        refine map_range_eq_slice (F j) expected _ _ (by omega) ?_
        intro i hi
        have hb : READ_BLOCK_SIZE * j + i < a := by omega
        have h1 := hpre (READ_BLOCK_SIZE * j + i) hb
        have hdiv : (READ_BLOCK_SIZE * j + i) / READ_BLOCK_SIZE = j := by
          rw [Nat.mul_add_div h128]
          simp [Nat.div_eq_of_lt hi]
        have hmd : (READ_BLOCK_SIZE * j + i) % READ_BLOCK_SIZE = i := by
          rw [Nat.mul_add_mod]
          exact Nat.mod_eq_of_lt hi
        rw [deviceByte, hdiv, hmd] at h1
        exact h1
      unfold verifyGo
      rw [dif_pos hposlt]
      simp only
      rw [if_pos hcmp, hminfull]
      have hstep : READ_BLOCK_SIZE * j + READ_BLOCK_SIZE =
          READ_BLOCK_SIZE * (j + 1) := by ring
      rw [hstep]
      have hrec := ih (j + 1) sc (by omega) (by omega)
      refine ⟨hrec.1, ?_⟩
      simp only [switchCount, List.filter]
      exact hrec.2

/-! ## Claim C3 -/

/-- C3 counterexample: with a device returning all zeroes and the expected
buffer `[0, 1]` (its single differing byte at address 1), `verify_flash`
reports the mismatch at address 0 — the 128-byte block start — not at
address 1 as the claim states. -/
theorem verify_mismatch_address_cex :
    (verify_flash (fun _ => some fun _ => 0) (fun _ => true) [0, 1]).1 =
      .error (.mismatch 0) ∧
    ¬ (verify_flash (fun _ => some fun _ => 0) (fun _ => true) [0, 1]).1 =
      .error (.mismatch 1) := by
  have h0 : (verify_flash (fun _ => some fun _ => 0) (fun _ => true)
      [0, 1]).1 = .error (.mismatch 0) := by
    simp only [verify_flash]
    split
    · unfold verifyGo
      rw [dif_pos (by decide : (0 : Nat) < ([0, 1] : List Nat).length)]
      simp only
      split
      · rename_i heq
        exact absurd heq (by decide)
      · rfl
    · rename_i hcon
      exact absurd trivial hcon
  refine ⟨h0, ?_⟩
  rw [h0]
  decide

/-- C3 (amended): when every read succeeds (the k-th read filling the
buffer from `F k`) and the read-back image first differs from the expected
buffer at address `a`, `verify_flash` fails immediately with a
`VerificationError` naming the start address of the 128-byte block
containing `a` — `128 * (a / 128)`, not `a` itself — and performs no retry
or recovery (exactly the one initial mode switch appears in the trace). -/
theorem verify_mismatch_block_start (F : Nat → Nat → Nat)
    (expected : List Nat) (a : Nat) (ha : a < expected.length)
    (hdiff : deviceByte F a ≠ expected.getD a 0)
    (hpre : ∀ b, b < a → deviceByte F b = expected.getD b 0) :
    (verify_flash (fun k => some (F k)) (fun _ => true) expected).1 =
      .error (.mismatch (READ_BLOCK_SIZE * (a / READ_BLOCK_SIZE))) ∧
    switchCount
      (verify_flash (fun k => some (F k)) (fun _ => true) expected).2 = 1 := by
  have h := verifyGo_firstdiff F expected a ha hdiff hpre
    (a / READ_BLOCK_SIZE) 0 1 (by simp) (by simp)
  simp only [Nat.mul_zero] at h
  simp only [verify_flash, if_pos rfl]
  refine ⟨h.1, ?_⟩
  simp only [switchCount, List.filter]
  have h2 := h.2
  simp only [switchCount] at h2
  simpa using h2

/-- Witness for C3: flipping the byte at address 1 of a two-byte expected
buffer yields the mismatch error at block start 0 with a single mode
switch. -/
theorem verify_mismatch_block_start_witness :
    (verify_flash (fun k => some fun _ => 0) (fun _ => true) [0, 1]).1 =
      .error (.mismatch (READ_BLOCK_SIZE * (1 / READ_BLOCK_SIZE))) ∧
    switchCount
      (verify_flash (fun k => some fun _ => 0) (fun _ => true) [0, 1]).2 =
      1 :=
  verify_mismatch_block_start (fun _ _ => 0) [0, 1] 1 (by decide)
    (by decide) (by decide)

/-! ## Claim C6 -/

theorem verifyGo_okAfter (reads : Nat → Option (Nat → Nat))
    (switches : Nat → Bool) (expected : List Nat) :
    ∀ (d pos k sc : Nat) (prev : VEvent), expected.length - pos ≤ d →
      okAfter prev (verifyGo reads switches expected pos k sc).2 = true := by
  intro d
  induction d with
  | zero =>
    intro pos k sc prev hle
    have hnp : ¬ pos < expected.length := by omega
    unfold verifyGo
    rw [dif_neg hnp]
    rfl
  | succ d ih =>
    intro pos k sc prev hle
    by_cases hp : pos < expected.length
    · have hlen1 : 0 < READ_BLOCK_SIZE ⊓ (expected.length - pos) :=
        lt_inf_iff.mpr ⟨by decide, by omega⟩
      unfold verifyGo
      rw [dif_pos hp]
      simp only
      cases hr : reads k with
      | some f =>
        simp only
        split
        · simp only [okAfter, Bool.true_and]
          exact ih _ _ _ _ (by omega)
        · rfl
      | none =>
        simp only
        split
        · cases hr2 : reads (k + 1) with
          | some f =>
            simp only
            split
            · simp only [okAfter, Bool.true_and]
              exact ih _ _ _ _ (by omega)
            · rfl
          | none => rfl
        · rfl
    · unfold verifyGo
      rw [dif_neg hp]
      rfl

/-- C6: during `verify_flash`, when a read transaction fails outright the
client attempts exactly one recovery cycle — re-issue the bootloader-mode
switch, wait 100 ms, retry the same read once — and a second failure of
that read is fatal (first conjunct: with both reads failing, the result is
the fatal read error and the trace is exactly one initial switch, the 50 ms
settle, the failed read, one recovery switch, the 100 ms settle, and the
failed retry — no third attempt); and this recovery is never applied to a
content mismatch (second conjunct: in every trace, every mode switch after
the first is immediately preceded by a failed read transaction). -/
theorem verify_read_recovery_spec :
    (∀ (reads : Nat → Option (Nat → Nat)) (expected : List Nat),
      expected ≠ [] → reads 0 = none → reads 1 = none →
      verify_flash reads (fun _ => true) expected =
        (.error (.readFatal 0),
         [.switchBoot, .sleepMs 50,
          .readTx 0 (min READ_BLOCK_SIZE expected.length) false,
          .switchBoot, .sleepMs 100,
          .readTx 0 (min READ_BLOCK_SIZE expected.length) false])) ∧
    (∀ (reads : Nat → Option (Nat → Nat)) (switches : Nat → Bool)
        (expected : List Nat),
      (verify_flash reads switches expected).2.head? = some .switchBoot ∧
      okAfter .switchBoot
        (verify_flash reads switches expected).2.tail = true) := by
  constructor
  · intro reads expected hne hr0 hr1
    have hpos : 0 < expected.length := List.length_pos.mpr hne
    simp only [verify_flash, if_pos rfl]
    unfold verifyGo
    rw [dif_pos hpos]
    simp only [hr0, hr1, Nat.sub_zero]
    simp
  · intro reads switches expected
    cases hsw : switches 0 with
    | false =>
      simp [verify_flash, hsw, okAfter]
    | true =>
      simp only [verify_flash, hsw, if_pos rfl]
      constructor
      · rfl
      · simp only [List.tail_cons, okAfter, Bool.true_and]
        exact verifyGo_okAfter reads switches expected expected.length 0 0 1
          (.sleepMs 50) (by omega)

/-- Witness for C6: a device whose reads always fail against a one-byte
expected buffer gives the fatal error and the six-event trace; the
trace-shape conjunct instantiated at the same oracle. -/
theorem verify_read_recovery_spec_witness :
    verify_flash (fun _ => none) (fun _ => true) [7] =
      (.error (.readFatal 0),
       [.switchBoot, .sleepMs 50, .readTx 0 (min READ_BLOCK_SIZE 1) false,
        .switchBoot, .sleepMs 100,
        .readTx 0 (min READ_BLOCK_SIZE 1) false]) ∧
    (verify_flash (fun _ => none) (fun _ => true) [7]).2.head? =
      some .switchBoot ∧
    okAfter .switchBoot
      (verify_flash (fun _ => none) (fun _ => true) [7]).2.tail = true := by
  constructor
  · exact verify_read_recovery_spec.1 (fun _ => none) [7] (by decide) rfl rfl
  · exact verify_read_recovery_spec.2 (fun _ => none) (fun _ => true) [7]

end Twiboot
